import Mathlib

/-!
# LingEchoX — verification of the role-assignment core, topology model and
# WebRTC signaling wrappers

Shallow embedding of the Go sources:

* `pkg/protocol` data declarations (`Role`, `NodeCapabilities`, `NodeMetrics`,
  `StreamInfo`): the declaration file itself is not in the source tree, but the
  field names and types are fully determined by their uses in
  `pkg/models/node.go` and `pkg/sfu/role_assigner.go`.
* `pkg/models/node.go`: `Node`, `Stream`, `Room`, `StreamBuffer`.
* `pkg/sfu/role_assigner.go`: `AssignRole`, `calculateForwardingScore`,
  `assignStreamsToForward` (with its bubble sort).
* `pkg/sfu/central_node.go`: `CreateRoom` / `GetRoom`.
* `rtcmedia` `Connection` (close/initialization guards) and `Signaling`
  (`CreateOffer`, `determineSdpType`).

Go `float64` quantities are modelled as `ℚ`; the score arithmetic uses only
`+ - * / min` on small constants, where the rational model mirrors the source
expressions one for one.  Go maps are modelled as association lists (one fixed
enumeration order — map iteration order is unspecified in Go, and no claim
depends on it).  Functions that can panic are modelled with `Option`.
-/

namespace LingEchoX

/-- `protocol.Role` (declared in `pkg/protocol`, used throughout). -/
inductive Role where
  | receiver
  | forwarder
  | hybrid
deriving DecidableEq, Repr

/-- `protocol.StreamType`. -/
inductive StreamType where
  | audio
  | video
deriving DecidableEq, Repr

/-- `protocol.NodeCapabilities` — fields as used by `Node.CanForward` and
`assignStreamsToForward`. `MaxForwardingStreams` is a stream count (converted
with `int(...)` at its use site). -/
structure NodeCapabilities where
  canForward : Bool
  minBandwidthMbps : ℚ
  maxForwardingStreams : Nat
deriving DecidableEq, Repr

/-- `protocol.NodeMetrics` — fields as used by `Node.CanForward` and
`calculateForwardingScore`.  `RTTMs` is an integer in Go (converted with
`float64(...)` at its use site); its value is carried here as a `ℚ`. -/
structure NodeMetrics where
  bandwidthMbps : ℚ
  cpuUsagePercent : ℚ
  memoryUsagePercent : ℚ
  rttMs : ℚ
  packetLossPercent : ℚ
deriving DecidableEq, Repr

/-- `models.Node` — the fields read by the role assigner.  (`UserID`, `RoomID`,
`LastUpdate`, `Connections` are never read by the verified operations.) -/
structure Node where
  id : String
  role : Role
  capabilities : NodeCapabilities
  metrics : NodeMetrics
  forwardingStreams : List String
deriving DecidableEq, Repr

/-- `models.Stream` — the fields read by the role assigner. -/
structure Stream where
  id : String
  sourceNodeID : String
  type : StreamType
deriving DecidableEq, Repr

/-- `protocol.StreamInfo` as built by `assignStreamsToForward`. -/
structure StreamInfo where
  streamID : String
  sourceNodeID : String
  streamType : StreamType
deriving DecidableEq, Repr

/-- `models.Room` — node and stream registries.  The Go maps are modelled as
association lists; `GetAllStreams`/`GetAllNodes` hand out the values in the
list's enumeration order (Go map iteration order is unspecified). -/
structure Room where
  id : String
  nodes : List (String × Node)
  streams : List (String × Stream)
deriving DecidableEq, Repr

/-- `models.NewRoom`. -/
def newRoom (id : String) : Room :=
  { id := id, nodes := [], streams := [] }

/-- `Room.GetAllStreams` — the values of the stream map. -/
def Room.getAllStreams (r : Room) : List Stream :=
  r.streams.map Prod.snd

/-- `sfu.Config` — the fields read by the role assigner. -/
structure Config where
  maxForwardingStreams : Nat
  minBandwidthForForwarding : ℚ
deriving DecidableEq, Repr

/-- `Node.CanForward` (`pkg/models/node.go`): capability flag set, bandwidth at
least the configured minimum, CPU ≤ 80 %, memory ≤ 85 %. -/
def Node.canFwd (n : Node) : Bool :=
  if !n.capabilities.canForward then false
  else if n.metrics.bandwidthMbps < n.capabilities.minBandwidthMbps then false
  else if n.metrics.cpuUsagePercent > 80 then false
  else if n.metrics.memoryUsagePercent > 85 then false
  else true

/-- `RoleAssigner.calculateForwardingScore` (`pkg/sfu/role_assigner.go`):
`0.4·bandwidthScore + 0.3·cpuScore + 0.2·memoryScore + 0.1·networkScore`
with the source's normalisations.  The Go literals `0.4`, … are the exact
rationals `4/10`, … here. -/
def calculateForwardingScore (cfg : Config) (n : Node) : ℚ :=
  let bandwidthScore := min 1 (n.metrics.bandwidthMbps / cfg.minBandwidthForForwarding)
  let cpuScore := 1 - min 1 (n.metrics.cpuUsagePercent / 100)
  let memoryScore := 1 - min 1 (n.metrics.memoryUsagePercent / 100)
  let rttScore := 1 - min 1 (n.metrics.rttMs / 200)
  let packetLossScore := 1 - min 1 (n.metrics.packetLossPercent / 10)
  let networkScore := (rttScore + packetLossScore) / 2
  bandwidthScore * (4/10) + cpuScore * (3/10) + memoryScore * (2/10) + networkScore * (1/10)

/-- The forwarding-suitability score exactly as the specification words it:
`0.4·min(1, bw/minBw) + 0.3·(1 − min(1, cpu/100)) + 0.2·(1 − min(1, mem/100))
 + 0.1·((1 − min(1, rtt/200)) + (1 − min(1, loss/10)))/2`. -/
def specScore (cfg : Config) (n : Node) : ℚ :=
  (4/10) * min 1 (n.metrics.bandwidthMbps / cfg.minBandwidthForForwarding)
    + (3/10) * (1 - min 1 (n.metrics.cpuUsagePercent / 100))
    + (2/10) * (1 - min 1 (n.metrics.memoryUsagePercent / 100))
    + (1/10) * (((1 - min 1 (n.metrics.rttMs / 200))
        + (1 - min 1 (n.metrics.packetLossPercent / 10))) / 2)

/-- `optimalForwarders` as computed inline in `AssignRole`:
`max(1, totalNodes/5)`, then capped at 10. -/
def optimalForwarders (totalNodes : Nat) : Nat :=
  let o := max 1 (totalNodes / 5)
  if o > 10 then 10 else o

/-- The count of nodes currently holding role Forwarder or Hybrid, as counted
by the loop in `AssignRole`. -/
def forwarderCount (allNodes : List Node) : Nat :=
  (allNodes.filter (fun n => n.role = Role.forwarder ∨ n.role = Role.hybrid)).length

/-- The `forwardedStreams` map of `assignStreamsToForward`: for a stream ID,
the total number of occurrences of that ID in the forwarding lists of the
*other* Forwarder/Hybrid nodes (absent key ⇒ 0). -/
def forwardedCount (node : Node) (allNodes : List Node) (streamID : String) : Nat :=
  allNodes.foldl
    (fun acc n =>
      if n.id = node.id then acc
      else if n.role = Role.forwarder ∨ n.role = Role.hybrid then
        acc + n.forwardingStreams.count streamID
      else acc) 0

/-- The `streamCandidate` records of `assignStreamsToForward`. -/
structure StreamCandidate where
  stream : Stream
  fwdCount : Nat
  priority : Int
deriving DecidableEq, Repr

/-- The candidate list built by `assignStreamsToForward`: every room stream
except the node's own source streams, with priority `100 − 10·forwarderCount`. -/
def streamCandidates (node : Node) (allNodes : List Node) (room : Room) :
    List StreamCandidate :=
  (room.getAllStreams).filterMap fun stream =>
    if stream.sourceNodeID = node.id then none
    else
      let fc := forwardedCount node allNodes stream.id
      some { stream := stream, fwdCount := fc, priority := 100 - (fc : Int) * 10 }

/-- One sweep of the bubble sort in `assignStreamsToForward`: adjacent
elements are swapped when the left one has strictly lower priority. -/
def bubblePass : List StreamCandidate → List StreamCandidate
  | [] => []
  | [a] => [a]
  | a :: b :: rest =>
      if a.priority < b.priority then b :: bubblePass (a :: rest)
      else a :: bubblePass (b :: rest)

/-- `k` sweeps of `bubblePass`. -/
def sortPasses : Nat → List StreamCandidate → List StreamCandidate
  | 0, l => l
  | k + 1, l => sortPasses k (bubblePass l)

/-- The bubble sort of `assignStreamsToForward` (descending by priority):
`len − 1` outer sweeps.  The source truncates each inner sweep to skip the
already-settled tail, which cannot change the result: the settled tail is
sorted descending and below every earlier element, so the skipped comparisons
never swap. -/
def bubbleSort (l : List StreamCandidate) : List StreamCandidate :=
  sortPasses (l.length - 1) l

/-- `RoleAssigner.assignStreamsToForward` (`pkg/sfu/role_assigner.go`). -/
def assignStreamsToForward (node : Node) (allNodes : List Node) (room : Room) :
    List StreamInfo :=
  let candidates := streamCandidates node allNodes room
  let sorted := bubbleSort candidates
  let maxStreams := min node.capabilities.maxForwardingStreams sorted.length
  (sorted.take maxStreams).map fun c =>
    { streamID := c.stream.id
      sourceNodeID := c.stream.sourceNodeID
      streamType := c.stream.type }

/-- `RoleAssigner.AssignRole` (`pkg/sfu/role_assigner.go`).  The Go `nil`
stream slice of the non-Hybrid outcomes is the empty list here.  The
subtraction `optimalForwarders − forwarderCount` is evaluated only under the
guard `forwarderCount < optimalForwarders`, where `Nat` subtraction agrees
with Go's `int` subtraction. -/
def AssignRole (cfg : Config) (node : Node) (allNodes : List Node) (room : Room) :
    Role × List StreamInfo :=
  if !node.canFwd then (Role.receiver, [])
  else
    let totalNodes := allNodes.length
    if totalNodes < 2 then (Role.receiver, [])
    else
      let fc := forwarderCount allNodes
      let opt := optimalForwarders totalNodes
      if fc < opt then
        let score := calculateForwardingScore cfg node
        let betterNodes :=
          (allNodes.filter (fun n =>
            n.id ≠ node.id ∧ n.canFwd ∧ calculateForwardingScore cfg n > score)).length
        if betterNodes < opt - fc then
          let streams := assignStreamsToForward node allNodes room
          if streams.length > 0 then (Role.hybrid, streams)
          else (Role.forwarder, [])
        else (Role.receiver, [])
      else (Role.receiver, [])

/-! ## StreamBuffer (`pkg/models/node.go`) -/

/-- `models.RTPPacket`: payload bytes, timestamp, RTP sequence number.
The timestamp (`time.Time`) is carried as a `Nat` tick; the payload as a byte
list; the `uint16` sequence as its numeric value. -/
structure RTPPacket where
  data : List Nat
  timestamp : Nat
  sequence : Nat
deriving DecidableEq, Repr

/-- `models.StreamBuffer`.  `MaxSize` and `CurrentSize` are Go `int`s. -/
structure StreamBuffer where
  packets : List RTPPacket
  maxSize : Int
  currentSize : Int
deriving DecidableEq, Repr

/-- `models.NewStreamBuffer`: empty packet slice (capacity `maxSize`), size 0. -/
def newStreamBuffer (maxSize : Int) : StreamBuffer :=
  { packets := [], maxSize := maxSize, currentSize := 0 }

/-- `StreamBuffer.AddPacket`: when `CurrentSize ≥ MaxSize` first drop the head
of the packet slice (`Packets[1:]`), then append.  Dropping the head of an
empty slice made with zero capacity panics in Go; that outcome is `none`.
(`NewStreamBuffer` allocates exactly `maxSize` capacity, so the slice is empty
at the eviction branch only when the capacity is 0 as well.) -/
def StreamBuffer.addPacket (sb : StreamBuffer) (p : RTPPacket) : Option StreamBuffer :=
  if sb.currentSize ≥ sb.maxSize then
    match sb.packets with
    | [] => none
    | _ :: rest =>
        some { packets := rest ++ [p], maxSize := sb.maxSize,
               currentSize := sb.currentSize - 1 + 1 }
  else
    some { packets := sb.packets ++ [p], maxSize := sb.maxSize,
           currentSize := sb.currentSize + 1 }

/-- A sequence of `AddPacket` calls; `none` as soon as one of them panics. -/
def StreamBuffer.addPackets (sb : StreamBuffer) : List RTPPacket → Option StreamBuffer
  | [] => some sb
  | p :: ps => (sb.addPacket p).bind fun sb1 => sb1.addPackets ps

/-! ## CentralNode (`pkg/sfu/central_node.go`) -/

/-- Insert-or-replace on an association list: the model of Go map assignment
`m[k] = v`. -/
def mapPut (k : String) {β : Type} (v : β) : List (String × β) → List (String × β)
  | [] => [(k, v)]
  | (k0, v0) :: rest =>
      if k0 = k then (k, v) :: rest else (k0, v0) :: mapPut k v rest

/-- Lookup on an association list: the model of Go map indexing with the
`value, ok` form. -/
def mapGet (k : String) {β : Type} : List (String × β) → Option β
  | [] => none
  | (k0, v0) :: rest => if k0 = k then some v0 else mapGet k rest

/-- `sfu.CentralNode` — the room registry (ID, config and logger omitted:
never read by the verified operations). -/
structure CentralNode where
  rooms : List (String × Room)
deriving DecidableEq, Repr

/-- `CentralNode.CreateRoom`: builds a fresh room with `models.NewRoom` and
stores it under `roomID`, returning it. -/
def CentralNode.createRoom (cn : CentralNode) (roomID : String) :
    CentralNode × Room :=
  let room := newRoom roomID
  ({ rooms := mapPut roomID room cn.rooms }, room)

/-- `CentralNode.GetRoom`. -/
def CentralNode.getRoom (cn : CentralNode) (roomID : String) : Option Room :=
  mapGet roomID cn.rooms

/-! ## rtcmedia.Connection (`Connection.Close` and the initialization guards)

The underlying `*webrtc.PeerConnection` is the external pion engine (out of
scope per the specification); its calls are abstracted.  What is modelled is
the wrapper's own state: whether the peer connection is present, whether the
stop channel is still live, and the gathered candidate strings.  `closeCount`
is a ghost counter of how many times `close(c.stopChannel)` has executed. -/

structure Conn where
  pcPresent : Bool
  stopChanLive : Bool
  closeCount : Nat
  candidates : List String
deriving DecidableEq, Repr

/-- The wrapper errors: `fmt.Errorf("peer connection is nil")` — the
"connection not initialized" error of the specification. -/
inductive ConnErr where
  | peerConnectionNil
deriving DecidableEq, Repr

/-- `rtcmedia.NewConnection`: no peer connection yet, a fresh open stop
channel, no candidates. -/
def newConn : Conn :=
  { pcPresent := false, stopChanLive := true, closeCount := 0, candidates := [] }

/-- `Connection.Create` (success path of `api.NewPeerConnection`): installs
the engine instance and registers the event handlers. -/
def Conn.create (c : Conn) : Conn :=
  { c with pcPresent := true }

/-- `Connection.Close`: closes and discards the engine instance when present;
in either case closes the stop channel if it is still live (the channel is
unbuffered, so the guarding non-blocking receive always falls through to
`close`) and then sets it to `nil`.  The wrapper itself never produces an
error: the only error returned is the engine's own `pc.Close()` result,
abstracted as success here. -/
def Conn.close (c : Conn) : Conn × Option ConnErr :=
  let c1 := if c.stopChanLive then
      { c with stopChanLive := false, closeCount := c.closeCount + 1 }
    else c
  ({ c1 with pcPresent := false }, none)

/-- Iterated `Close`. -/
def Conn.closeIter (c : Conn) : Nat → Conn
  | 0 => c
  | n + 1 => (c.close).1.closeIter n

/-- `Connection.AddICECandidate`: guard on the peer connection being present;
the engine call itself is out of scope and abstracted as success. -/
def Conn.addICECandidate (c : Conn) (_candidate : String) : Except ConnErr Unit :=
  if !c.pcPresent then .error .peerConnectionNil else .ok ()

/-- `Connection.SetLocalDescription`: same guard. -/
def Conn.setLocalDescription (c : Conn) (_desc : String) : Except ConnErr Unit :=
  if !c.pcPresent then .error .peerConnectionNil else .ok ()

/-- `Connection.SetRemoteDescription`: same guard. -/
def Conn.setRemoteDescription (c : Conn) (_desc : String) : Except ConnErr Unit :=
  if !c.pcPresent then .error .peerConnectionNil else .ok ()

/-- `Connection.CreateOffer`: same guard (the engine would produce the SDP). -/
def Conn.mkOffer (c : Conn) : Except ConnErr String :=
  if !c.pcPresent then .error .peerConnectionNil else .ok ""

/-- `Connection.CreateAnswer`: same guard. -/
def Conn.mkAnswer (c : Conn) : Except ConnErr String :=
  if !c.pcPresent then .error .peerConnectionNil else .ok ""

/-! ## rtcmedia.Signaling (`determineSdpType`, `SetRemoteDescription`,
`CreateOffer` / `waitForICEGathering`) -/

/-- `webrtc.SignalingState` (pion), as read through
`Connection.GetSignalingState`. -/
inductive SigState where
  | stable
  | haveLocalOffer
  | haveRemoteOffer
  | haveLocalPranswer
  | haveRemotePranswer
  | closed
deriving DecidableEq, Repr

/-- `webrtc.SDPType` (pion). -/
inductive SDPType where
  | offer
  | answer
  | pranswer
  | rollback
deriving DecidableEq, Repr

/-- Go `strings.Contains s pat` for a non-empty pattern: `pat` occurs in `s`
iff splitting `s` on `pat` yields more than one part. -/
def strContains (s pat : String) : Bool :=
  (s.splitOn pat).length ≥ 2

/-- `Signaling.determineSdpType`: signaling-state cases first, then the
`a=sendrecv` / `a=recvonly` content sniff. -/
def determineSdpType (signalingState : SigState) (sdp : String) : SDPType :=
  match signalingState with
  | .stable => .offer
  | .haveLocalOffer => .answer
  | _ =>
      if strContains sdp "a=sendrecv" || strContains sdp "a=recvonly" then .answer
      else .offer

/-- The input to `Signaling.SetRemoteDescription`: either the JSON envelope
`{"type": ..., "sdp": ...}` (the `json.Unmarshal` succeeds, type explicit) or
a bare SDP body (the unmarshal fails). -/
inductive SdpInput where
  | envelope (type : SDPType) (sdp : String)
  | bare (sdp : String)
deriving DecidableEq, Repr

/-- The session description `Signaling.SetRemoteDescription` passes to the
connection: the explicit type for an envelope, the inferred type for a bare
body. -/
def remoteDescription (signalingState : SigState) : SdpInput → SDPType × String
  | .envelope t sdp => (t, sdp)
  | .bare sdp => (determineSdpType signalingState sdp, sdp)

/-- The environment a `Signaling.CreateOffer` call runs in.  The engine
behaviour and the passage of time are parameters:

* `createOfferRes` — result of `connection.CreateOffer(nil)`;
* `setLocalRes` — error of `connection.SetLocalDescription`, if any;
* `candTrace t` — the candidate list `connection.GetCandidates()` would
  return at the `t`-th 100 ms tick (the `OnICECandidate` handler appends to it
  in the background, so the trace is append-only);
* `timeoutTicks` — `opt.GetICETimeout()` divided by the 100 ms poll interval;
* `localDesc` — `connection.GetLocalDescription()` after gathering. -/
structure OfferEnv where
  createOfferRes : Except String String
  setLocalRes : Option String
  candTrace : Nat → List String
  timeoutTicks : Nat
  localDesc : Option String

/-- The polling loop of `Signaling.waitForICEGathering` from tick `t` on: the
timeout fires once `timeoutTicks` ticks have elapsed; otherwise each 100 ms
tick polls `GetCandidates` and the wait ends at the first tick that sees a
non-empty list.  Returns that tick. -/
def waitFrom (env : OfferEnv) (t : Nat) : Except String Nat :=
  if _h : env.timeoutTicks ≤ t then .error "ICE gathering timeout"
  else if env.candTrace t ≠ [] then .ok t
  else waitFrom env (t + 1)
termination_by env.timeoutTicks - t

/-- `Signaling.waitForICEGathering`. -/
def waitForICEGathering (env : OfferEnv) : Except String Nat :=
  waitFrom env 0

/-- The retrieval state of a `Signaling` (`offerSDP` / `answerSDP`). -/
structure SigRecord where
  offerSDP : String
  answerSDP : String
deriving DecidableEq, Repr

/-- `Signaling.CreateOffer`: create the offer, set it as local description,
wait for ICE gathering (100 ms polls up to the timeout), re-read the candidate
list (after the 200 ms settle sleep, i.e. two ticks later), fail when it is
empty or the local description is absent, otherwise return the local SDP body
with the candidates and record the offer SDP. -/
def Signaling.createOffer (env : OfferEnv) (s : SigRecord) :
    Except String (String × List String) × SigRecord :=
  match env.createOfferRes with
  | .error e => (.error e, s)
  | .ok _offer =>
    match env.setLocalRes with
    | some e => (.error e, s)
    | none =>
      match waitForICEGathering env with
      | .error e => (.error e, s)
      | .ok t =>
        let candidates := env.candTrace (t + 2)
        if candidates.length = 0 then (.error "no ICE candidates generated", s)
        else
          match env.localDesc with
          | none => (.error "local description is nil", s)
          | some d => (.ok (d, candidates), { s with offerSDP := d })

/-- `Signaling.GetOfferSDP`. -/
def Signaling.getOfferSDP (s : SigRecord) : String :=
  s.offerSDP

/-! ## Derived notions used by the statements -/

/-- The number of *other* Forwarder/Hybrid nodes whose forwarding list
contains `sid` — the reading "how many other forwarding nodes already relay
this stream".  When every node's forwarding list is duplicate-free (it is a
set of stream IDs in the data model), this agrees with the occurrence count
`forwardedCount` the source computes. -/
def nodesForwardingCount (node : Node) (allNodes : List Node) (sid : String) : Nat :=
  (allNodes.filter (fun n =>
    n.id ≠ node.id ∧ (n.role = Role.forwarder ∨ n.role = Role.hybrid) ∧
      sid ∈ n.forwardingStreams)).length

/-- Descending-priority order on stream candidates. -/
def priorityDesc (a b : StreamCandidate) : Prop :=
  b.priority ≤ a.priority

instance : DecidableRel priorityDesc := fun a b =>
  inferInstanceAs (Decidable (b.priority ≤ a.priority))

/-! ## The heap-threaded reading of `AssignRole` (frame effect)

`AssignRole` receives pointers (`*Node`, `[]*Node`, `*Room`).  To state that
it never writes through them, the call is re-read in state-passing style: the
pointed-to objects form a `Heap`, every method call on them takes and returns
the heap, and the frame property is that the returned heap is the argument
heap.  (The bubble sort permutes only the local `candidates` slice the
function itself allocated, so it stays pure.) -/

structure Heap where
  node : Node
  allNodes : List Node
  room : Room
deriving DecidableEq, Repr

/-- `node.CanForward()` — lock, read the capability and metric fields,
unlock. -/
def canFwdSt (n : Node) (h : Heap) : Bool × Heap :=
  (n.canFwd, h)

/-- `ra.calculateForwardingScore(node)` — reads the metric fields. -/
def calcScoreSt (cfg : Config) (n : Node) (h : Heap) : ℚ × Heap :=
  (calculateForwardingScore cfg n, h)

/-- `room.GetAllStreams()` — hands out a copy of the stream map's values. -/
def getAllStreamsSt (h : Heap) : List Stream × Heap :=
  (h.room.getAllStreams, h)

/-- `n.GetForwardingStreams()` — hands out a copy of the forwarding list. -/
def getForwardingStreamsSt (n : Node) (h : Heap) : List String × Heap :=
  (n.forwardingStreams, h)

/-- One iteration of the `forwardedStreams` map-building loop of
`assignStreamsToForward`, heap-threaded. -/
def forwardedCountMapStep (acc : (String → Nat) × Heap) (n : Node) :
    (String → Nat) × Heap :=
  if n.id = acc.2.node.id then acc
  else if n.role = Role.forwarder ∨ n.role = Role.hybrid then
    let g := getForwardingStreamsSt n acc.2
    (fun sid => acc.1 sid + g.1.count sid, g.2)
  else acc

/-- The `forwardedStreams` map-building loop of `assignStreamsToForward`,
heap-threaded. -/
def forwardedCountMapSt (h : Heap) : (String → Nat) × Heap :=
  h.allNodes.foldl forwardedCountMapStep (fun _ => 0, h)

/-- One iteration of the forwarder-counting loop of `AssignRole`,
heap-threaded. -/
def forwarderCountStep (acc : Nat × Heap) (n : Node) : Nat × Heap :=
  if n.role = Role.forwarder ∨ n.role = Role.hybrid then (acc.1 + 1, acc.2)
  else acc

/-- The forwarder-counting loop of `AssignRole`, heap-threaded. -/
def forwarderCountSt (h : Heap) : Nat × Heap :=
  h.allNodes.foldl forwarderCountStep (0, h)

/-- One iteration of the better-node-counting loop of `AssignRole`,
heap-threaded. -/
def betterNodesStep (cfg : Config) (score : ℚ) (acc : Nat × Heap) (n : Node) :
    Nat × Heap :=
  if n.id ≠ acc.2.node.id then
    let cf := canFwdSt n acc.2
    if cf.1 then
      let sc := calcScoreSt cfg n cf.2
      if sc.1 > score then (acc.1 + 1, sc.2) else (acc.1, sc.2)
    else (acc.1, cf.2)
  else acc

/-- The better-node-counting loop of `AssignRole`, heap-threaded. -/
def betterNodesSt (cfg : Config) (score : ℚ) (h : Heap) : Nat × Heap :=
  h.allNodes.foldl (betterNodesStep cfg score) (0, h)

/-- `assignStreamsToForward`, heap-threaded. -/
def assignStreamsSt (h : Heap) : List StreamInfo × Heap :=
  let gs := getAllStreamsSt h
  let fm := forwardedCountMapSt gs.2
  let candidates := gs.1.filterMap fun stream =>
    if stream.sourceNodeID = fm.2.node.id then none
    else
      some { stream := stream, fwdCount := fm.1 stream.id,
             priority := 100 - (fm.1 stream.id : Int) * 10 }
  let sorted := bubbleSort candidates
  let maxStreams := min fm.2.node.capabilities.maxForwardingStreams sorted.length
  ((sorted.take maxStreams).map fun c =>
      { streamID := c.stream.id
        sourceNodeID := c.stream.sourceNodeID
        streamType := c.stream.type },
   fm.2)

/-- `AssignRole`, heap-threaded. -/
def assignRoleSt (cfg : Config) (h : Heap) : (Role × List StreamInfo) × Heap :=
  let cf := canFwdSt h.node h
  if !cf.1 then ((Role.receiver, []), cf.2)
  else
    let h1 := cf.2
    let totalNodes := h1.allNodes.length
    if totalNodes < 2 then ((Role.receiver, []), h1)
    else
      let fc := forwarderCountSt h1
      let opt := optimalForwarders totalNodes
      if fc.1 < opt then
        let sc := calcScoreSt cfg fc.2.node fc.2
        let bn := betterNodesSt cfg sc.1 sc.2
        if bn.1 < opt - fc.1 then
          let streams := assignStreamsSt bn.2
          if streams.1.length > 0 then ((Role.hybrid, streams.1), streams.2)
          else ((Role.forwarder, []), streams.2)
        else ((Role.receiver, []), bn.2)
      else ((Role.receiver, []), fc.2)

/-! # Theorems -/

/-- `Node.CanForward` returns false exactly on the four ineligibility
conditions of the source. -/
theorem canFwd_eq_false_iff (n : Node) :
    n.canFwd = false ↔
      (n.capabilities.canForward = false ∨
       n.metrics.bandwidthMbps < n.capabilities.minBandwidthMbps ∨
       n.metrics.cpuUsagePercent > 80 ∨
       n.metrics.memoryUsagePercent > 85) := by
  unfold Node.canFwd
  split_ifs with h1 h2 h3 h4 <;> simp_all

/-- **C2.** `AssignRole` returns role Receiver with an empty stream list
whenever the candidate is ineligible (capability flag unset, bandwidth below
the configured minimum, CPU > 80 %, or memory > 85 %), or the node list has
fewer than 2 nodes, or the Forwarder/Hybrid count already meets or exceeds
`optimalForwarders`.  The function is total (it never errors): it is a plain
function into `Role × List StreamInfo`. -/
theorem assignRole_receiver_cases (cfg : Config) (node : Node)
    (allNodes : List Node) (room : Room)
    (h : node.capabilities.canForward = false ∨
         node.metrics.bandwidthMbps < node.capabilities.minBandwidthMbps ∨
         node.metrics.cpuUsagePercent > 80 ∨
         node.metrics.memoryUsagePercent > 85 ∨
         allNodes.length < 2 ∨
         optimalForwarders allNodes.length ≤ forwarderCount allNodes) :
    AssignRole cfg node allNodes room = (Role.receiver, []) := by
  rcases Bool.eq_false_or_eq_true node.canFwd with hcf | hcf
  · have h' : allNodes.length < 2 ∨
        optimalForwarders allNodes.length ≤ forwarderCount allNodes := by
      rcases h with h | h | h | h | h | h
      · exact absurd ((canFwd_eq_false_iff node).mpr (Or.inl h)) (by simp [hcf])
      · exact absurd ((canFwd_eq_false_iff node).mpr (Or.inr (Or.inl h))) (by simp [hcf])
      · exact absurd ((canFwd_eq_false_iff node).mpr (Or.inr (Or.inr (Or.inl h)))) (by simp [hcf])
      · exact absurd ((canFwd_eq_false_iff node).mpr (Or.inr (Or.inr (Or.inr h)))) (by simp [hcf])
      · exact Or.inl h
      · exact Or.inr h
    rcases h' with h2 | h3
    · simp [AssignRole, hcf, h2]
    · by_cases h2 : allNodes.length < 2
      · simp [AssignRole, hcf, h2]
      · simp [AssignRole, hcf, h2, Nat.not_lt.mpr h3]
  · simp [AssignRole, hcf]

/-- Witness for C2 at a concrete ineligible node. -/
theorem assignRole_receiver_cases_witness :
    ((⟨"n", Role.receiver, ⟨false, 0, 4⟩, ⟨0, 0, 0, 0, 0⟩, []⟩ : Node).capabilities.canForward
        = false ∨
      (⟨"n", Role.receiver, ⟨false, 0, 4⟩, ⟨0, 0, 0, 0, 0⟩, []⟩ : Node).metrics.bandwidthMbps
        < (⟨"n", Role.receiver, ⟨false, 0, 4⟩, ⟨0, 0, 0, 0, 0⟩, []⟩ : Node).capabilities.minBandwidthMbps ∨
      (⟨"n", Role.receiver, ⟨false, 0, 4⟩, ⟨0, 0, 0, 0, 0⟩, []⟩ : Node).metrics.cpuUsagePercent > 80 ∨
      (⟨"n", Role.receiver, ⟨false, 0, 4⟩, ⟨0, 0, 0, 0, 0⟩, []⟩ : Node).metrics.memoryUsagePercent > 85 ∨
      ([] : List Node).length < 2 ∨
      optimalForwarders ([] : List Node).length ≤ forwarderCount []) ∧
    AssignRole ⟨4, 1⟩ ⟨"n", Role.receiver, ⟨false, 0, 4⟩, ⟨0, 0, 0, 0, 0⟩, []⟩ [] (newRoom "r")
      = (Role.receiver, []) :=
  ⟨Or.inl rfl, assignRole_receiver_cases _ _ _ _ (Or.inl rfl)⟩

/-- **C7.** The inferred SDP type for a bare SDP body: offer in the stable
signaling state, answer in the have-local-offer state, and in every other
state the `a=sendrecv` / `a=recvonly` content sniff — the state cases take
precedence over the sniff (the first two conjuncts hold for *every* body),
and that is the type `SetRemoteDescription` hands to the connection. -/
theorem determineSdpType_spec (st : SigState) (sdp : String)
    (hn1 : st ≠ SigState.stable) (hn2 : st ≠ SigState.haveLocalOffer) :
    determineSdpType SigState.stable sdp = SDPType.offer ∧
    determineSdpType SigState.haveLocalOffer sdp = SDPType.answer ∧
    determineSdpType st sdp =
      (if strContains sdp "a=sendrecv" || strContains sdp "a=recvonly"
       then SDPType.answer else SDPType.offer) ∧
    remoteDescription st (SdpInput.bare sdp) = (determineSdpType st sdp, sdp) ∧
    remoteDescription SigState.stable (SdpInput.bare sdp) = (SDPType.offer, sdp) ∧
    remoteDescription SigState.haveLocalOffer (SdpInput.bare sdp) = (SDPType.answer, sdp) := by
  refine ⟨rfl, rfl, ?_, rfl, rfl, rfl⟩
  cases st <;> simp_all [determineSdpType]

/-- Witness for C7: in the have-remote-offer state the sniff applies, and a
body carrying `a=sendrecv` is typed as an answer there — while the same body
is typed offer in the stable state. -/
theorem determineSdpType_spec_witness :
    (SigState.haveRemoteOffer ≠ SigState.stable ∧
     SigState.haveRemoteOffer ≠ SigState.haveLocalOffer) ∧
    (determineSdpType SigState.stable "v=0\r\na=sendrecv\r\n" = SDPType.offer ∧
     determineSdpType SigState.haveLocalOffer "v=0\r\na=sendrecv\r\n" = SDPType.answer ∧
     determineSdpType SigState.haveRemoteOffer "v=0\r\na=sendrecv\r\n" =
       (if strContains "v=0\r\na=sendrecv\r\n" "a=sendrecv"
           || strContains "v=0\r\na=sendrecv\r\n" "a=recvonly"
        then SDPType.answer else SDPType.offer)) :=
  ⟨⟨by decide, by decide⟩,
    have h := determineSdpType_spec SigState.haveRemoteOffer "v=0\r\na=sendrecv\r\n"
      (by decide) (by decide)
    ⟨h.1, h.2.1, h.2.2.1⟩⟩

/-- Map assignment followed by lookup at the same key yields the assigned
value. -/
theorem mapGet_mapPut (k : String) {β : Type} (v : β) (l : List (String × β)) :
    mapGet k (mapPut k v l) = some v := by
  induction l with
  | nil => simp [mapPut, mapGet]
  | cons kv rest ih =>
      obtain ⟨k0, v0⟩ := kv
      by_cases h : k0 = k <;> simp [mapPut, mapGet, h, ih]

/-- **C8 counterexample.** `CreateRoom` on an ID that already names a room
holding a registered node does *not* leave that room in place: `GetRoom`
afterwards returns a fresh empty room instead.  (The populated starting state
arises in the source by `CreateRoom` followed by `Room.AddNode` through the
stored pointer.) -/
theorem createRoom_replaces_existing_room :
    (CentralNode.getRoom
        (CentralNode.createRoom
          ⟨[("r", { id := "r",
                    nodes := [("n1", ⟨"n1", Role.receiver, ⟨true, 1, 4⟩,
                                ⟨10, 10, 10, 10, 0⟩, []⟩)],
                    streams := [] })]⟩ "r").1 "r")
      = some (newRoom "r") ∧
    some (newRoom "r") ≠
      some ({ id := "r",
              nodes := [("n1", ⟨"n1", Role.receiver, ⟨true, 1, 4⟩,
                          ⟨10, 10, 10, 10, 0⟩, []⟩)],
              streams := [] } : Room) := by
  constructor
  · rfl
  · simp [newRoom]

/-- **C8 amended.** `CreateRoom` is an unconditional overwrite, not
create-if-absent: it always installs a fresh empty room under the given ID
(replacing any existing room with that ID) and returns it, and `GetRoom`
afterwards returns that fresh room. -/
theorem createRoom_installs_fresh_room (cn : CentralNode) (roomID : String) :
    (cn.createRoom roomID).1.getRoom roomID = some (newRoom roomID) ∧
    (cn.createRoom roomID).2 = newRoom roomID := by
  refine ⟨?_, rfl⟩
  simp [CentralNode.createRoom, CentralNode.getRoom, mapGet_mapPut]

/-- Once the stop channel has been released, further `Close` calls change
neither the close count nor the channel state. -/
theorem closeIter_stable (n : Nat) :
    ∀ c : Conn, c.stopChanLive = false →
      (c.closeIter n).closeCount = c.closeCount ∧
      (c.closeIter n).stopChanLive = false := by
  induction n with
  | zero => exact fun c h => ⟨rfl, h⟩
  | succ k ih =>
      intro c h
      have hc : (c.close).1 = { c with pcPresent := false } := by
        simp [Conn.close, h]
      have hrec := ih { c with pcPresent := false } h
      constructor
      · show ((c.close).1.closeIter k).closeCount = c.closeCount
        rw [hc]
        exact hrec.1
      · show ((c.close).1.closeIter k).stopChanLive = false
        rw [hc]
        exact hrec.2

/-- After at least one `Close`, the peer connection is gone. -/
theorem closeIter_pcPresent (n : Nat) :
    ∀ c : Conn, ((c.close).1.closeIter n).pcPresent = false := by
  induction n with
  | zero =>
      intro c
      unfold Conn.close
      by_cases h : c.stopChanLive <;> simp [h, Conn.closeIter]
  | succ k ih =>
      intro c
      show (((c.close).1.close).1.closeIter k).pcPresent = false
      exact ih _

/-- **C5.** `Close` is idempotent and error-free: every call returns no error
of the wrapper's own (the only error it can relay is the engine's own close
result), `Close` works on a never-created connection, the stop channel is
closed exactly once over any number of `Close` calls (`closeCount = min n 1`,
whether or not `Create` ran), and whenever the peer connection is absent —
before `Create` or after `Close` — the five operations `AddICECandidate`,
`SetLocalDescription`, `SetRemoteDescription`, `CreateOffer`, `CreateAnswer`
all return the "peer connection is nil" (connection-not-initialized) error
instead of panicking. -/
theorem connection_close_spec :
    (∀ c : Conn, (c.close).2 = none) ∧
    (∀ c : Conn, ((c.close).1).pcPresent = false ∧ ((c.close).1).stopChanLive = false) ∧
    newConn.pcPresent = false ∧
    (∀ n : Nat, (newConn.closeIter n).closeCount = min n 1 ∧
       ((newConn.create).closeIter n).closeCount = min n 1) ∧
    (∀ (c : Conn) (cand d : String), c.pcPresent = false →
       c.addICECandidate cand = Except.error ConnErr.peerConnectionNil ∧
       c.setLocalDescription d = Except.error ConnErr.peerConnectionNil ∧
       c.setRemoteDescription d = Except.error ConnErr.peerConnectionNil ∧
       c.mkOffer = Except.error ConnErr.peerConnectionNil ∧
       c.mkAnswer = Except.error ConnErr.peerConnectionNil) := by
  refine ⟨fun c => rfl, ?_, rfl, ?_, ?_⟩
  · intro c
    unfold Conn.close
    by_cases h : c.stopChanLive <;> simp [h]
  · intro n
    match n with
    | 0 => exact ⟨rfl, rfl⟩
    | n + 1 =>
        constructor
        · show ((newConn.close).1.closeIter n).closeCount = min (n + 1) 1
          have h1 : (newConn.close).1 =
              { pcPresent := false, stopChanLive := false, closeCount := 1,
                candidates := [] } := by
            simp [Conn.close, newConn]
          rw [h1]
          have := (closeIter_stable n _ (rfl :
            ({ pcPresent := false, stopChanLive := false, closeCount := 1,
               candidates := [] } : Conn).stopChanLive = false)).1
          rw [this]
          show (1 : Nat) = min (n + 1) 1
          omega
        · show ((newConn.create.close).1.closeIter n).closeCount = min (n + 1) 1
          have h1 : (newConn.create.close).1 =
              { pcPresent := false, stopChanLive := false, closeCount := 1,
                candidates := [] } := by
            simp [Conn.close, Conn.create, newConn]
          rw [h1]
          have := (closeIter_stable n _ (rfl :
            ({ pcPresent := false, stopChanLive := false, closeCount := 1,
               candidates := [] } : Conn).stopChanLive = false)).1
          rw [this]
          show (1 : Nat) = min (n + 1) 1
          omega
  · intro c cand d h
    refine ⟨?_, ?_, ?_, ?_, ?_⟩ <;>
      simp [Conn.addICECandidate, Conn.setLocalDescription,
        Conn.setRemoteDescription, Conn.mkOffer, Conn.mkAnswer, h]

/-- Witness for C5: the never-created connection has no peer connection, its
operations fail with the not-initialized error, and three `Close` calls close
the stop channel exactly once. -/
theorem connection_close_spec_witness :
    newConn.pcPresent = false ∧
    newConn.addICECandidate "candidate:1" = Except.error ConnErr.peerConnectionNil ∧
    (newConn.closeIter 3).closeCount = min 3 1 :=
  ⟨rfl,
   (connection_close_spec.2.2.2.2 newConn "candidate:1" "sdp" rfl).1,
   (connection_close_spec.2.2.2.1 3).1⟩

/-- Running `AddPacket` over a packet sequence from any in-invariant buffer
state (`CurrentSize` = slice length ≤ `MaxSize`, with `MaxSize ≥ 1`) never
panics and retains exactly the most recent `MaxSize`-bounded suffix. -/
theorem addPackets_run (M : Nat) (hM : 1 ≤ M) :
    ∀ (ps L : List RTPPacket), L.length ≤ M →
      StreamBuffer.addPackets ⟨L, (M : Int), (L.length : Int)⟩ ps =
        some ⟨(L ++ ps).drop (L.length + ps.length - M), (M : Int),
              ((min (L.length + ps.length) M : Nat) : Int)⟩ := by
  intro ps
  induction ps with
  | nil =>
      intro L hL
      have h1 : L.length + ([] : List RTPPacket).length - M = 0 := by
        simp
        omega
      have h2 : min (L.length + ([] : List RTPPacket).length) M = L.length := by
        simp
        omega
      rw [h1, h2]
      simp [StreamBuffer.addPackets]
  | cons p ps ih =>
      intro L hL
      rw [StreamBuffer.addPackets]
      by_cases hfull : L.length = M
      · -- buffer full: evict the head, then append
        cases L with
        | nil =>
            simp at hfull
            omega
        | cons hd tl =>
            simp only [List.length_cons] at hfull
            have hstep : StreamBuffer.addPacket
                ⟨hd :: tl, (M : Int), ((hd :: tl).length : Int)⟩ p =
                some ⟨tl ++ [p], (M : Int), ((tl ++ [p]).length : Int)⟩ := by
              have hcond : (((hd :: tl).length : Nat) : Int) ≥ (M : Int) := by
                exact_mod_cast Nat.le_of_eq (by simpa using hfull.symm)
              simp only [StreamBuffer.addPacket]
              rw [if_pos hcond]
              simp only [Option.some.injEq, StreamBuffer.mk.injEq,
                List.length_append, List.length_cons, List.length_nil]
              refine ⟨trivial, trivial, ?_⟩
              push_cast
              omega
            rw [hstep, Option.some_bind']
            have htl : (tl ++ [p]).length ≤ M := by
              simp only [List.length_append, List.length_cons, List.length_nil]
              omega
            rw [ih (tl ++ [p]) htl]
            simp only [Option.some.injEq, StreamBuffer.mk.injEq]
            refine ⟨?_, trivial, ?_⟩
            · -- retained suffixes agree
              have e1 : (tl ++ [p]) ++ ps = tl ++ p :: ps := by simp
              have e2 : (tl ++ [p]).length + ps.length - M = ps.length := by
                simp only [List.length_append, List.length_cons, List.length_nil]
                omega
              have e3 : (hd :: tl).length + (p :: ps).length - M = ps.length + 1 := by
                simp only [List.length_cons]
                omega
              rw [e1, e2, e3]
              have e4 : (hd :: tl) ++ p :: ps = hd :: (tl ++ p :: ps) := by simp
              rw [e4, List.drop_succ_cons]
            · -- sizes agree
              congr 1
              simp only [List.length_append, List.length_cons, List.length_nil]
              omega
      · -- room available: plain append
        have hlt : L.length < M := lt_of_le_of_ne hL hfull
        have hstep : StreamBuffer.addPacket ⟨L, (M : Int), (L.length : Int)⟩ p =
            some ⟨L ++ [p], (M : Int), ((L ++ [p]).length : Int)⟩ := by
          have hcond : ¬ ((L.length : Int) ≥ (M : Int)) := by
            omega
          simp only [StreamBuffer.addPacket]
          rw [if_neg hcond]
          simp only [Option.some.injEq, StreamBuffer.mk.injEq, List.length_append,
            List.length_cons, List.length_nil]
          refine ⟨trivial, trivial, ?_⟩
          push_cast
          ring
        rw [hstep, Option.some_bind']
        rw [ih (L ++ [p]) (by simp only [List.length_append, List.length_cons, List.length_nil]; omega)]
        simp only [Option.some.injEq, StreamBuffer.mk.injEq]
        refine ⟨?_, trivial, ?_⟩
        · have e1 : (L ++ [p]) ++ ps = L ++ p :: ps := by simp
          have e2 : (L ++ [p]).length + ps.length = L.length + (p :: ps).length := by
            simp only [List.length_append, List.length_cons, List.length_nil]
            omega
          rw [e1, e2]
        · congr 1
          simp only [List.length_append, List.length_cons, List.length_nil]
          omega

/-- **C4.** From a fresh `NewStreamBuffer(m)` with `m ≥ 1`, inserting the
packet sequence `ps` (length K) succeeds and leaves `CurrentSize = min K m`
with exactly the last `min K m` inserted packets retained in insertion order;
the size never exceeds `m` (the equation holds for every insertion sequence,
hence at every intermediate state), and one insertion into a full
in-invariant buffer evicts exactly the oldest packet. -/
theorem streamBuffer_fifo (m : Nat) (hm : 1 ≤ m) (ps : List RTPPacket) :
    (newStreamBuffer (m : Int)).addPackets ps =
      some ⟨ps.drop (ps.length - m), (m : Int), ((min ps.length m : Nat) : Int)⟩ ∧
    min ps.length m ≤ m ∧
    (∀ (L : List RTPPacket) (p : RTPPacket), L.length = m →
        StreamBuffer.addPacket ⟨L, (m : Int), (L.length : Int)⟩ p =
          some ⟨L.tail ++ [p], (m : Int), (m : Int)⟩) := by
  refine ⟨?_, Nat.min_le_right _ _, ?_⟩
  · have := addPackets_run m hm ps [] (by simp)
    simpa [newStreamBuffer] using this
  · intro L p hL
    cases L with
    | nil =>
        simp at hL
        omega
    | cons hd tl =>
        simp only [List.length_cons] at hL
        have hcond : (((hd :: tl).length : Nat) : Int) ≥ (m : Int) := by
          exact_mod_cast Nat.le_of_eq (by simpa using hL.symm)
        simp only [StreamBuffer.addPacket]
        rw [if_pos hcond]
        simp only [Option.some.injEq, StreamBuffer.mk.injEq, List.tail_cons,
          List.length_cons]
        refine ⟨trivial, trivial, ?_⟩
        push_cast
        omega

/-- Witness for C4: capacity 2, three packets — the first is evicted, the
last two are retained in order, and the size is 2. -/
theorem streamBuffer_fifo_witness :
    1 ≤ 2 ∧
    (newStreamBuffer ((2 : Nat) : Int)).addPackets
        [⟨[1], 0, 1⟩, ⟨[2], 0, 2⟩, ⟨[3], 0, 3⟩] =
      some ⟨[⟨[2], 0, 2⟩, ⟨[3], 0, 3⟩], ((2 : Nat) : Int),
            ((min 3 2 : Nat) : Int)⟩ :=
  ⟨by decide,
   (streamBuffer_fifo 2 (by decide) [⟨[1], 0, 1⟩, ⟨[2], 0, 2⟩, ⟨[3], 0, 3⟩]).1⟩

/-- **C10.** `AddPacket` never panics on any insertion sequence into a buffer
created by `NewStreamBuffer(m)` with `m ≥ 1` (the eviction branch only ever
fires on a non-empty slice), and the precondition is necessary: with
`m = 0` the very first `AddPacket` reaches the eviction branch with an empty
packet slice — `Packets[1:]` on a zero-capacity empty slice, a panic
(`none`). -/
theorem addPacket_safety (m : Nat) (hm : 1 ≤ m) (ps : List RTPPacket)
    (p : RTPPacket) :
    (∃ sb : StreamBuffer, (newStreamBuffer (m : Int)).addPackets ps = some sb) ∧
    (newStreamBuffer 0).addPacket p = none := by
  constructor
  · exact ⟨_, (streamBuffer_fifo m hm ps).1⟩
  · rfl

/-- Witness for C10 at capacity 1 and a two-packet sequence. -/
theorem addPacket_safety_witness :
    1 ≤ 1 ∧
    ((∃ sb : StreamBuffer,
        (newStreamBuffer ((1 : Nat) : Int)).addPackets
          [⟨[7], 0, 7⟩, ⟨[8], 0, 8⟩] = some sb) ∧
      (newStreamBuffer 0).addPacket ⟨[9], 0, 9⟩ = none) :=
  ⟨by decide, addPacket_safety 1 (by decide) [⟨[7], 0, 7⟩, ⟨[8], 0, 8⟩] ⟨[9], 0, 9⟩⟩

/-- If no candidates are visible at any polled tick from `t` up to the
timeout, the gathering wait times out. -/
theorem waitFrom_timeout (env : OfferEnv) :
    ∀ (n t : Nat), env.timeoutTicks - t ≤ n →
      (∀ u, t ≤ u → u < env.timeoutTicks → env.candTrace u = []) →
      waitFrom env t = Except.error "ICE gathering timeout" := by
  intro n
  induction n with
  | zero =>
      intro t h0 _h
      rw [waitFrom]
      simp [Nat.le_of_sub_eq_zero (Nat.le_zero.mp h0)]
  | succ k ih =>
      intro t hk h
      rw [waitFrom]
      by_cases hT : env.timeoutTicks ≤ t
      · simp [hT]
      · have h1 : env.candTrace t = [] := h t le_rfl (by omega)
        simp only [hT, dite_false, h1, ne_eq, not_true_eq_false, if_false]
        exact ih (t + 1) (by omega) (fun u hu hu2 => h u (by omega) hu2)

/-- When the gathering wait returns a tick, that tick is within the timeout
and saw a non-empty candidate list. -/
theorem waitFrom_ok (env : OfferEnv) :
    ∀ (n t u : Nat), env.timeoutTicks - t ≤ n →
      waitFrom env t = Except.ok u →
      t ≤ u ∧ u < env.timeoutTicks ∧ env.candTrace u ≠ [] := by
  intro n
  induction n with
  | zero =>
      intro t u h0 hw
      rw [waitFrom] at hw
      simp [Nat.le_of_sub_eq_zero (Nat.le_zero.mp h0)] at hw
  | succ k ih =>
      intro t u hk hw
      rw [waitFrom] at hw
      by_cases hT : env.timeoutTicks ≤ t
      · simp [hT] at hw
      · by_cases h1 : env.candTrace t = []
        · simp only [hT, dite_false, h1, ne_eq, not_true_eq_false, if_false] at hw
          obtain ⟨hu1, hu2, hu3⟩ := ih (t + 1) u (by omega) hw
          exact ⟨by omega, hu2, hu3⟩
        · simp only [hT, dite_false, h1, ne_eq, not_false_eq_true, if_true,
            Except.ok.injEq] at hw
          subst hw
          exact ⟨le_rfl, by omega, h1⟩

/-- **C6.** `Signaling.CreateOffer` with a successful engine offer and
local-description set: it polls `GetCandidates` on the fixed 100 ms tick up
to the configured timeout; if no candidates appear at any tick within the
timeout it fails with the "ICE gathering timeout" error (state unchanged); if
the poll ends at tick `t` but the candidate list re-read after the settle
sleep is empty, it fails with the "no ICE candidates generated" error; and on
success it returns the local SDP body together with all gathered candidate
strings and records the offer SDP, so `GetOfferSDP` returns it afterwards. -/
theorem signaling_createOffer_spec (env : OfferEnv) (s : SigRecord) (off : String)
    (hoff : env.createOfferRes = Except.ok off)
    (hset : env.setLocalRes = none) :
    ((∀ t, t < env.timeoutTicks → env.candTrace t = []) →
        Signaling.createOffer env s = (Except.error "ICE gathering timeout", s)) ∧
    (∀ t, waitForICEGathering env = Except.ok t →
        t < env.timeoutTicks ∧ env.candTrace t ≠ [] ∧
        (env.candTrace (t + 2) = [] →
          Signaling.createOffer env s =
            (Except.error "no ICE candidates generated", s)) ∧
        (∀ d, env.localDesc = some d → env.candTrace (t + 2) ≠ [] →
          Signaling.createOffer env s =
            (Except.ok (d, env.candTrace (t + 2)), { s with offerSDP := d }) ∧
          Signaling.getOfferSDP (Signaling.createOffer env s).2 = d)) := by
  constructor
  · intro hempty
    have hw : waitForICEGathering env = Except.error "ICE gathering timeout" :=
      waitFrom_timeout env env.timeoutTicks 0 (by omega)
        (fun u _ hu2 => hempty u hu2)
    unfold Signaling.createOffer
    rw [hoff, hset, hw]
  · intro t hw
    obtain ⟨_, ht, hne⟩ :=
      waitFrom_ok env env.timeoutTicks 0 t (by omega) hw
    refine ⟨ht, hne, ?_, ?_⟩
    · intro hz
      unfold Signaling.createOffer
      rw [hoff, hset, hw]
      simp [hz]
    · intro d hd hnz
      have hlen : ¬ ((env.candTrace (t + 2)).length = 0) := by
        simpa [List.length_eq_zero] using hnz
      constructor
      · unfold Signaling.createOffer
        rw [hoff, hset, hw]
        simp [hlen, hd]
      · unfold Signaling.createOffer
        rw [hoff, hset, hw]
        simp [hlen, hd, Signaling.getOfferSDP]

/-- Witness for C6: a trace where one candidate is visible from the first
tick on, a 5-tick timeout, and a present local description. -/
theorem signaling_createOffer_spec_witness :
    (({ createOfferRes := Except.ok "offer-sdp", setLocalRes := none,
        candTrace := fun _ => ["candidate:1"], timeoutTicks := 5,
        localDesc := some "local-sdp" } : OfferEnv).createOfferRes
          = Except.ok "offer-sdp" ∧
      ({ createOfferRes := Except.ok "offer-sdp", setLocalRes := none,
         candTrace := fun _ => ["candidate:1"], timeoutTicks := 5,
         localDesc := some "local-sdp" } : OfferEnv).setLocalRes = none) ∧
    Signaling.createOffer
        { createOfferRes := Except.ok "offer-sdp", setLocalRes := none,
          candTrace := fun _ => ["candidate:1"], timeoutTicks := 5,
          localDesc := some "local-sdp" } ⟨"", ""⟩ =
      (Except.ok ("local-sdp", ["candidate:1"]),
       { offerSDP := "local-sdp", answerSDP := "" }) := by
  refine ⟨⟨rfl, rfl⟩, ?_⟩
  have hw : waitForICEGathering
      { createOfferRes := Except.ok "offer-sdp", setLocalRes := none,
        candTrace := fun _ => ["candidate:1"], timeoutTicks := 5,
        localDesc := some "local-sdp" } = Except.ok 0 := by
    rw [waitForICEGathering, waitFrom]
    simp
  have h := (signaling_createOffer_spec
      { createOfferRes := Except.ok "offer-sdp", setLocalRes := none,
        candTrace := fun _ => ["candidate:1"], timeoutTicks := 5,
        localDesc := some "local-sdp" } ⟨"", ""⟩ "offer-sdp" rfl rfl).2 0 hw
  exact (h.2.2.2 "local-sdp" rfl (by simp)).1

/-- The specification's wording of the score (coefficient-first products,
averaged network term) computes exactly the source's
`calculateForwardingScore`. -/
theorem specScore_eq_calculateForwardingScore (cfg : Config) (n : Node) :
    specScore cfg n = calculateForwardingScore cfg n := by
  unfold specScore calculateForwardingScore
  ring

/-- **C1.** For an eligible candidate in a node list of at least 2 nodes
whose Forwarder/Hybrid count is still below `optimalForwarders`, `AssignRole`
admits the candidate to a forwarding role (Forwarder or Hybrid) **iff** the
number of other eligible nodes with strictly higher forwarding-suitability
score (the specification's formula, via `specScore`) is less than
`optimalForwarders − forwarderCount`. -/
theorem assignRole_admission_iff (cfg : Config) (node : Node)
    (allNodes : List Node) (room : Room)
    (h1 : node.canFwd = true)
    (h2 : 2 ≤ allNodes.length)
    (h3 : forwarderCount allNodes < optimalForwarders allNodes.length) :
    ((AssignRole cfg node allNodes room).1 = Role.forwarder ∨
     (AssignRole cfg node allNodes room).1 = Role.hybrid) ↔
    (allNodes.filter (fun n =>
        n.id ≠ node.id ∧ n.canFwd ∧ specScore cfg n > specScore cfg node)).length
      < optimalForwarders allNodes.length - forwarderCount allNodes := by
  have hn2 : ¬ (allNodes.length < 2) := by omega
  simp only [specScore_eq_calculateForwardingScore]
  simp only [AssignRole, h1, Bool.not_true, Bool.false_eq_true, if_false, hn2,
    if_true, h3]
  split_ifs with hb hs
  · exact iff_of_true (Or.inr rfl) hb
  · exact iff_of_true (Or.inl rfl) hb
  · exact iff_of_false (by rintro (h | h) <;> exact h) hb

/-- Witness for C1: two eligible receiver nodes, the candidate scoring at
least as high as its peer — zero better nodes, one open slot, admitted. -/
theorem assignRole_admission_iff_witness :
    ((⟨"a", Role.receiver, ⟨true, 1, 4⟩, ⟨10, 10, 10, 10, 0⟩, []⟩ : Node).canFwd = true ∧
     2 ≤ ([⟨"a", Role.receiver, ⟨true, 1, 4⟩, ⟨10, 10, 10, 10, 0⟩, []⟩,
           ⟨"b", Role.receiver, ⟨true, 1, 4⟩, ⟨10, 50, 50, 50, 1⟩, []⟩] : List Node).length ∧
     forwarderCount [⟨"a", Role.receiver, ⟨true, 1, 4⟩, ⟨10, 10, 10, 10, 0⟩, []⟩,
           ⟨"b", Role.receiver, ⟨true, 1, 4⟩, ⟨10, 50, 50, 50, 1⟩, []⟩]
       < optimalForwarders ([⟨"a", Role.receiver, ⟨true, 1, 4⟩, ⟨10, 10, 10, 10, 0⟩, []⟩,
           ⟨"b", Role.receiver, ⟨true, 1, 4⟩, ⟨10, 50, 50, 50, 1⟩, []⟩] : List Node).length) ∧
    (((AssignRole ⟨4, 1⟩ ⟨"a", Role.receiver, ⟨true, 1, 4⟩, ⟨10, 10, 10, 10, 0⟩, []⟩
        [⟨"a", Role.receiver, ⟨true, 1, 4⟩, ⟨10, 10, 10, 10, 0⟩, []⟩,
         ⟨"b", Role.receiver, ⟨true, 1, 4⟩, ⟨10, 50, 50, 50, 1⟩, []⟩]
        (newRoom "r")).1 = Role.forwarder ∨
      (AssignRole ⟨4, 1⟩ ⟨"a", Role.receiver, ⟨true, 1, 4⟩, ⟨10, 10, 10, 10, 0⟩, []⟩
        [⟨"a", Role.receiver, ⟨true, 1, 4⟩, ⟨10, 10, 10, 10, 0⟩, []⟩,
         ⟨"b", Role.receiver, ⟨true, 1, 4⟩, ⟨10, 50, 50, 50, 1⟩, []⟩]
        (newRoom "r")).1 = Role.hybrid) ↔
     ((([⟨"a", Role.receiver, ⟨true, 1, 4⟩, ⟨10, 10, 10, 10, 0⟩, []⟩,
         ⟨"b", Role.receiver, ⟨true, 1, 4⟩, ⟨10, 50, 50, 50, 1⟩, []⟩] : List Node).filter
        (fun n => n.id ≠ "a" ∧ n.canFwd ∧
          specScore ⟨4, 1⟩ n >
            specScore ⟨4, 1⟩ ⟨"a", Role.receiver, ⟨true, 1, 4⟩, ⟨10, 10, 10, 10, 0⟩, []⟩)).length
       < optimalForwarders 2 - forwarderCount
          [⟨"a", Role.receiver, ⟨true, 1, 4⟩, ⟨10, 10, 10, 10, 0⟩, []⟩,
           ⟨"b", Role.receiver, ⟨true, 1, 4⟩, ⟨10, 50, 50, 50, 1⟩, []⟩])) :=
  ⟨⟨by decide, by decide, by decide⟩,
   assignRole_admission_iff ⟨4, 1⟩
     ⟨"a", Role.receiver, ⟨true, 1, 4⟩, ⟨10, 10, 10, 10, 0⟩, []⟩
     [⟨"a", Role.receiver, ⟨true, 1, 4⟩, ⟨10, 10, 10, 10, 0⟩, []⟩,
      ⟨"b", Role.receiver, ⟨true, 1, 4⟩, ⟨10, 50, 50, 50, 1⟩, []⟩]
     (newRoom "r") (by decide) (by decide) (by decide)⟩

/-- One bubble sweep permutes the list. -/
theorem bubblePass_perm (l : List StreamCandidate) : (bubblePass l).Perm l := by
  induction l using bubblePass.induct with
  | case1 => simp [bubblePass]
  | case2 a => simp [bubblePass]
  | case3 a b rest h ih =>
      rw [bubblePass, if_pos h]
      exact (ih.cons b).trans (List.Perm.swap a b rest)
  | case4 a b rest h ih =>
      rw [bubblePass, if_neg h]
      exact ih.cons a

/-- A sweep leaves a descending-sorted list unchanged. -/
theorem bubblePass_sorted_id (l : List StreamCandidate)
    (h : List.Pairwise priorityDesc l) : bubblePass l = l := by
  induction l using bubblePass.induct with
  | case1 => simp [bubblePass]
  | case2 a => simp [bubblePass]
  | case3 a b rest hab ih =>
      exfalso
      have := (List.pairwise_cons.mp h).1 b (List.mem_cons_self b rest)
      exact absurd hab (not_lt.mpr this)
  | case4 a b rest hab ih =>
      rw [bubblePass, if_neg hab, ih (List.pairwise_cons.mp h).2]

/-- A sweep carries a minimum-priority element to the last position. -/
theorem bubblePass_min_last (l : List StreamCandidate) (hne : l ≠ []) :
    ∃ l1 m, bubblePass l = l1 ++ [m] ∧ ∀ x ∈ l, m.priority ≤ x.priority := by
  induction l using bubblePass.induct with
  | case1 => exact absurd rfl hne
  | case2 a =>
      exact ⟨[], a, by simp [bubblePass], by intro x hx; simp at hx; simp [hx]⟩
  | case3 a b rest hab ih =>
      obtain ⟨l1, m, hm, hmin⟩ := ih (by simp)
      refine ⟨b :: l1, m, ?_, ?_⟩
      · rw [bubblePass, if_pos hab, hm]
        rfl
      · intro x hx
        rcases List.mem_cons.mp hx with rfl | hx
        · exact hmin x (List.mem_cons_self x rest)
        · rcases List.mem_cons.mp hx with rfl | hx
          · calc m.priority ≤ a.priority := hmin a (List.mem_cons_self a rest)
              _ ≤ x.priority := le_of_lt hab
          · exact hmin x (List.mem_cons_of_mem a hx)
  | case4 a b rest hab ih =>
      obtain ⟨l1, m, hm, hmin⟩ := ih (by simp)
      refine ⟨a :: l1, m, ?_, ?_⟩
      · rw [bubblePass, if_neg hab, hm]
        rfl
      · intro x hx
        rcases List.mem_cons.mp hx with rfl | hx
        · calc m.priority ≤ b.priority := hmin b (List.mem_cons_self b rest)
            _ ≤ x.priority := not_lt.mp hab
        · exact hmin x hx

/-- A sweep does not disturb a sorted suffix that lower-bounds everything
before it. -/
theorem bubblePass_append_sorted :
    ∀ (l s : List StreamCandidate), List.Pairwise priorityDesc s →
      (∀ x ∈ l, ∀ y ∈ s, y.priority ≤ x.priority) →
      bubblePass (l ++ s) = bubblePass l ++ s := by
  intro l
  induction l using bubblePass.induct with
  | case1 =>
      intro s hs _hb
      simp [bubblePass, bubblePass_sorted_id s hs]
  | case2 a =>
      intro s hs hb
      cases s with
      | nil => simp
      | cons y s2 =>
          have hay : ¬ (a.priority < y.priority) :=
            not_lt.mpr (hb a (by simp) y (by simp))
          have h1 : bubblePass [a] = [a] := by simp [bubblePass]
          rw [h1]
          show bubblePass (a :: y :: s2) = a :: y :: s2
          rw [bubblePass, if_neg hay, bubblePass_sorted_id (y :: s2) hs]
  | case3 a b rest hab ih =>
      intro s hs hb
      show bubblePass (a :: b :: (rest ++ s)) = bubblePass (a :: b :: rest) ++ s
      rw [bubblePass, if_pos hab]
      rw [show a :: (rest ++ s) = (a :: rest) ++ s from rfl]
      rw [ih s hs (fun x hx y hy => hb x (by
        rcases List.mem_cons.mp hx with rfl | hx
        · exact List.mem_cons_self x (b :: rest)
        · exact List.mem_cons_of_mem a (List.mem_cons_of_mem b hx)) y hy)]
      rw [bubblePass, if_pos hab]
      rfl
  | case4 a b rest hab ih =>
      intro s hs hb
      show bubblePass (a :: b :: (rest ++ s)) = bubblePass (a :: b :: rest) ++ s
      rw [bubblePass, if_neg hab]
      rw [show b :: (rest ++ s) = (b :: rest) ++ s from rfl]
      rw [ih s hs (fun x hx y hy => hb x (List.mem_cons_of_mem a hx) y hy)]
      rw [bubblePass, if_neg hab]
      rfl

/-- Any number of sweeps permutes the list. -/
theorem sortPasses_perm (k : Nat) : ∀ l, (sortPasses k l).Perm l := by
  induction k with
  | zero => intro l; exact List.Perm.refl l
  | succ k ih =>
      intro l
      exact (ih (bubblePass l)).trans (bubblePass_perm l)

/-- `k` sweeps sort a list of at most `k + 1` elements prepended to an
already-sorted, lower-bounding suffix. -/
theorem sortPasses_sorted_general (k : Nat) :
    ∀ (l s : List StreamCandidate), l.length ≤ k + 1 →
      List.Pairwise priorityDesc s →
      (∀ x ∈ l, ∀ y ∈ s, y.priority ≤ x.priority) →
      List.Pairwise priorityDesc (sortPasses k (l ++ s)) := by
  induction k with
  | zero =>
      intro l s hl hs hb
      match l, hl with
      | [], _ => simpa [sortPasses] using hs
      | [a], _ =>
          show List.Pairwise priorityDesc (a :: s)
          exact List.pairwise_cons.mpr ⟨fun y hy => hb a (by simp) y hy, hs⟩
  | succ k ih =>
      intro l s hl hs hb
      show List.Pairwise priorityDesc (sortPasses k (bubblePass (l ++ s)))
      cases l with
      | nil =>
          rw [List.nil_append, bubblePass_sorted_id s hs]
          have := ih [] s (by simp) hs (by simp)
          simpa using this
      | cons a l2 =>
          obtain ⟨l1, m, hm, hmin⟩ := bubblePass_min_last (a :: l2) (by simp)
          rw [bubblePass_append_sorted (a :: l2) s hs hb, hm,
            List.append_assoc, List.singleton_append]
          have hlen : l1.length ≤ k + 1 := by
            have h1 : (bubblePass (a :: l2)).length = (a :: l2).length :=
              (bubblePass_perm (a :: l2)).length_eq
            rw [hm] at h1
            simp at h1 hl
            omega
          have hmem : ∀ x ∈ l1, x ∈ a :: l2 := by
            intro x hx
            have : x ∈ l1 ++ [m] := List.mem_append_left _ hx
            rw [← hm] at this
            exact (bubblePass_perm (a :: l2)).mem_iff.mp this
          have hmmem : m ∈ a :: l2 := by
            have : m ∈ l1 ++ [m] := List.mem_append_right _ (by simp)
            rw [← hm] at this
            exact (bubblePass_perm (a :: l2)).mem_iff.mp this
          apply ih l1 (m :: s) hlen
          · exact List.pairwise_cons.mpr
              ⟨fun y hy => hb m hmmem y hy, hs⟩
          · intro x hx y hy
            rcases List.mem_cons.mp hy with rfl | hy
            · exact hmin x (hmem x hx)
            · exact hb x (hmem x hx) y hy

/-- The bubble sort of the source orders candidates by descending priority. -/
theorem bubbleSort_sorted (l : List StreamCandidate) :
    List.Pairwise priorityDesc (bubbleSort l) := by
  have := sortPasses_sorted_general (l.length - 1) l [] (by omega)
    List.Pairwise.nil (by simp)
  simpa [bubbleSort] using this

/-- The bubble sort of the source permutes the candidate list. -/
theorem bubbleSort_perm (l : List StreamCandidate) : (bubbleSort l).Perm l :=
  sortPasses_perm _ l

/-- Every built stream candidate excludes the own source streams of the node
and carries priority `100 - 10*forwardedCount`. -/
theorem mem_streamCandidates (node : Node) (allNodes : List Node) (room : Room)
    (c : StreamCandidate) (hc : c ∈ streamCandidates node allNodes room) :
    c.stream.sourceNodeID ≠ node.id ∧
    c.fwdCount = forwardedCount node allNodes c.stream.id ∧
    c.priority = 100 - (forwardedCount node allNodes c.stream.id : Int) * 10 := by
  unfold streamCandidates at hc
  rw [List.mem_filterMap] at hc
  obtain ⟨s0, _hs0, hf⟩ := hc
  by_cases heq : s0.sourceNodeID = node.id
  · simp [heq] at hf
  · simp only [heq, if_false, Option.some.injEq] at hf
    subst hf
    exact ⟨heq, rfl, rfl⟩

/-- Accumulator form of the `forwardedStreams` counting loop. -/
theorem forwardedCount_go (node : Node) (sid : String) :
    ∀ (l : List Node) (acc : Nat),
      l.foldl (fun acc n =>
        if n.id = node.id then acc
        else if n.role = Role.forwarder ∨ n.role = Role.hybrid then
          acc + n.forwardingStreams.count sid
        else acc) acc
      = acc + forwardedCount node l sid := by
  intro l
  induction l with
  | nil => intro acc; simp [forwardedCount]
  | cons n ns ih =>
      intro acc
      rw [List.foldl_cons, ih]
      have hrhs : forwardedCount node (n :: ns) sid =
          (if n.id = node.id then (0 : Nat)
           else if n.role = Role.forwarder ∨ n.role = Role.hybrid then
             0 + n.forwardingStreams.count sid
           else 0) + forwardedCount node ns sid := by
        show List.foldl (fun acc n =>
            if n.id = node.id then acc
            else if n.role = Role.forwarder ∨ n.role = Role.hybrid then
              acc + n.forwardingStreams.count sid
            else acc)
          (if n.id = node.id then (0 : Nat)
           else if n.role = Role.forwarder ∨ n.role = Role.hybrid then
             0 + n.forwardingStreams.count sid
           else 0) ns = _
        exact ih _
      rw [hrhs]
      split_ifs <;> omega

/-- With duplicate-free forwarding lists, the occurrence count the source
computes is the number of other Forwarder/Hybrid nodes already relaying the
stream. -/
theorem forwardedCount_eq_nodesForwardingCount (node : Node)
    (allNodes : List Node) (sid : String)
    (h : ∀ n ∈ allNodes, n.forwardingStreams.Nodup) :
    forwardedCount node allNodes sid = nodesForwardingCount node allNodes sid := by
  induction allNodes with
  | nil => rfl
  | cons n ns ih =>
      have hn := h n (List.mem_cons_self n ns)
      have hns := fun x hx => h x (List.mem_cons_of_mem n hx)
      have hfc : forwardedCount node (n :: ns) sid =
          (if n.id = node.id then (0 : Nat)
           else if n.role = Role.forwarder ∨ n.role = Role.hybrid then
             0 + n.forwardingStreams.count sid
           else 0) + forwardedCount node ns sid := by
        show List.foldl (fun acc n =>
            if n.id = node.id then acc
            else if n.role = Role.forwarder ∨ n.role = Role.hybrid then
              acc + n.forwardingStreams.count sid
            else acc)
          (if n.id = node.id then (0 : Nat)
           else if n.role = Role.forwarder ∨ n.role = Role.hybrid then
             0 + n.forwardingStreams.count sid
           else 0) ns = _
        exact forwardedCount_go node sid ns _
      rw [hfc, ih hns]
      unfold nodesForwardingCount
      rw [List.filter_cons]
      by_cases h1 : n.id = node.id
      · simp [h1]
      · by_cases h2 : n.role = Role.forwarder ∨ n.role = Role.hybrid
        · by_cases h3 : sid ∈ n.forwardingStreams
          · simp [h1, h2, h3, List.count_eq_one_of_mem hn h3]
            omega
          · simp [h1, h2, h3, List.count_eq_zero_of_not_mem h3]
        · simp [h1, h2]

/-- **C3.** For an admitted forwarder candidate (eligible, at least 2 nodes,
open slots, within rank, duplicate-free forwarding lists): the returned
stream list never contains a stream whose source is the candidate itself;
every remaining room stream is a candidate with priority
`100 - 10*(other forwarders already relaying it)`; at most
`MaxForwardingStreams` streams are returned, taken from the top of a
descending-priority ordering of the candidates; and the role is Hybrid
exactly when the list is non-empty and Forwarder when it is empty. -/
theorem assignRole_stream_assignment (cfg : Config) (node : Node)
    (allNodes : List Node) (room : Room)
    (h1 : node.canFwd = true)
    (h2 : 2 ≤ allNodes.length)
    (h3 : forwarderCount allNodes < optimalForwarders allNodes.length)
    (h4 : (allNodes.filter (fun n =>
        n.id ≠ node.id ∧ n.canFwd ∧
          calculateForwardingScore cfg n > calculateForwardingScore cfg node)).length
        < optimalForwarders allNodes.length - forwarderCount allNodes)
    (h5 : ∀ n ∈ allNodes, n.forwardingStreams.Nodup) :
    (∀ si ∈ assignStreamsToForward node allNodes room, si.sourceNodeID ≠ node.id) ∧
    (∀ c ∈ streamCandidates node allNodes room,
        c.priority = 100 - 10 * (nodesForwardingCount node allNodes c.stream.id : Int)) ∧
    (assignStreamsToForward node allNodes room).length
        ≤ node.capabilities.maxForwardingStreams ∧
    (∃ l : List StreamCandidate,
        l.Perm (streamCandidates node allNodes room) ∧
        List.Pairwise priorityDesc l ∧
        assignStreamsToForward node allNodes room =
          (l.take (min node.capabilities.maxForwardingStreams l.length)).map
            (fun c => { streamID := c.stream.id,
                        sourceNodeID := c.stream.sourceNodeID,
                        streamType := c.stream.type })) ∧
    (assignStreamsToForward node allNodes room ≠ [] →
        AssignRole cfg node allNodes room =
          (Role.hybrid, assignStreamsToForward node allNodes room)) ∧
    (assignStreamsToForward node allNodes room = [] →
        AssignRole cfg node allNodes room = (Role.forwarder, [])) := by
  have hrole : AssignRole cfg node allNodes room =
      (if 0 < (assignStreamsToForward node allNodes room).length
       then (Role.hybrid, assignStreamsToForward node allNodes room)
       else (Role.forwarder, [])) := by
    have hn2 : ¬ (allNodes.length < 2) := by omega
    simp only [AssignRole, h1, Bool.not_true, Bool.false_eq_true, if_false, hn2,
      if_true, h3]
    rw [if_pos h4]

  refine ⟨?_, ?_, ?_, ?_, ?_, ?_⟩
  · intro si hsi
    simp only [assignStreamsToForward, List.mem_map] at hsi
    obtain ⟨c, hc, rfl⟩ := hsi
    have hc2 : c ∈ bubbleSort (streamCandidates node allNodes room) :=
      List.mem_of_mem_take hc
    have hc3 : c ∈ streamCandidates node allNodes room :=
      (bubbleSort_perm _).mem_iff.mp hc2
    exact (mem_streamCandidates node allNodes room c hc3).1
  · intro c hc
    obtain ⟨_, _, hp⟩ := mem_streamCandidates node allNodes room c hc
    rw [hp, forwardedCount_eq_nodesForwardingCount node allNodes _ h5]
    ring
  · simp only [assignStreamsToForward, List.length_map, List.length_take]
    omega
  · exact ⟨bubbleSort (streamCandidates node allNodes room), bubbleSort_perm _,
      bubbleSort_sorted _, rfl⟩
  · intro hne
    rw [hrole, if_pos (List.length_pos.mpr hne)]
  · intro hz
    rw [hrole, if_neg (by simp [hz])]

/-- Witness for C3: candidate "a" with one other (ineligible) node "b", a room with b's
stream and a's own stream — a is admitted and forwards exactly b's stream. -/
theorem assignRole_stream_assignment_witness :
    ((⟨"a", Role.receiver, ⟨true, 1, 2⟩, ⟨10, 10, 10, 10, 0⟩, []⟩ : Node).canFwd = true ∧
     2 ≤ ([⟨"a", Role.receiver, ⟨true, 1, 2⟩, ⟨10, 10, 10, 10, 0⟩, []⟩,
           ⟨"b", Role.receiver, ⟨false, 1, 2⟩, ⟨10, 50, 50, 50, 1⟩, []⟩] : List Node).length ∧
     forwarderCount [⟨"a", Role.receiver, ⟨true, 1, 2⟩, ⟨10, 10, 10, 10, 0⟩, []⟩,
           ⟨"b", Role.receiver, ⟨false, 1, 2⟩, ⟨10, 50, 50, 50, 1⟩, []⟩] <
       optimalForwarders 2 ∧
     (([⟨"a", Role.receiver, ⟨true, 1, 2⟩, ⟨10, 10, 10, 10, 0⟩, []⟩,
        ⟨"b", Role.receiver, ⟨false, 1, 2⟩, ⟨10, 50, 50, 50, 1⟩, []⟩] : List Node).filter
       (fun n => n.id ≠ "a" ∧ n.canFwd ∧
         calculateForwardingScore ⟨2, 1⟩ n >
           calculateForwardingScore ⟨2, 1⟩
             ⟨"a", Role.receiver, ⟨true, 1, 2⟩, ⟨10, 10, 10, 10, 0⟩, []⟩)).length
       < optimalForwarders 2 - forwarderCount
           [⟨"a", Role.receiver, ⟨true, 1, 2⟩, ⟨10, 10, 10, 10, 0⟩, []⟩,
            ⟨"b", Role.receiver, ⟨false, 1, 2⟩, ⟨10, 50, 50, 50, 1⟩, []⟩]) ∧
    (assignStreamsToForward ⟨"a", Role.receiver, ⟨true, 1, 2⟩, ⟨10, 10, 10, 10, 0⟩, []⟩
        [⟨"a", Role.receiver, ⟨true, 1, 2⟩, ⟨10, 10, 10, 10, 0⟩, []⟩,
         ⟨"b", Role.receiver, ⟨false, 1, 2⟩, ⟨10, 50, 50, 50, 1⟩, []⟩]
        ⟨"r", [], [("s1", ⟨"s1", "b", StreamType.audio⟩),
                   ("s2", ⟨"s2", "a", StreamType.audio⟩)]⟩ ≠ [] →
      AssignRole ⟨2, 1⟩ ⟨"a", Role.receiver, ⟨true, 1, 2⟩, ⟨10, 10, 10, 10, 0⟩, []⟩
        [⟨"a", Role.receiver, ⟨true, 1, 2⟩, ⟨10, 10, 10, 10, 0⟩, []⟩,
         ⟨"b", Role.receiver, ⟨false, 1, 2⟩, ⟨10, 50, 50, 50, 1⟩, []⟩]
        ⟨"r", [], [("s1", ⟨"s1", "b", StreamType.audio⟩),
                   ("s2", ⟨"s2", "a", StreamType.audio⟩)]⟩ =
        (Role.hybrid,
         assignStreamsToForward ⟨"a", Role.receiver, ⟨true, 1, 2⟩, ⟨10, 10, 10, 10, 0⟩, []⟩
           [⟨"a", Role.receiver, ⟨true, 1, 2⟩, ⟨10, 10, 10, 10, 0⟩, []⟩,
            ⟨"b", Role.receiver, ⟨false, 1, 2⟩, ⟨10, 50, 50, 50, 1⟩, []⟩]
           ⟨"r", [], [("s1", ⟨"s1", "b", StreamType.audio⟩),
                      ("s2", ⟨"s2", "a", StreamType.audio⟩)]⟩)) :=
  ⟨⟨by decide, by decide, by decide, by decide⟩,
   (assignRole_stream_assignment ⟨2, 1⟩
      ⟨"a", Role.receiver, ⟨true, 1, 2⟩, ⟨10, 10, 10, 10, 0⟩, []⟩
      [⟨"a", Role.receiver, ⟨true, 1, 2⟩, ⟨10, 10, 10, 10, 0⟩, []⟩,
       ⟨"b", Role.receiver, ⟨false, 1, 2⟩, ⟨10, 50, 50, 50, 1⟩, []⟩]
      ⟨"r", [], [("s1", ⟨"s1", "b", StreamType.audio⟩),
                 ("s2", ⟨"s2", "a", StreamType.audio⟩)]⟩
      (by decide) (by decide) (by decide) (by decide)
      (by decide)).2.2.2.2.1⟩

/-- Head unfolding of the `forwardedStreams` occurrence count. -/
theorem forwardedCount_cons (node n : Node) (ns : List Node) (sid : String) :
    forwardedCount node (n :: ns) sid =
      (if n.id = node.id then 0
       else if n.role = Role.forwarder ∨ n.role = Role.hybrid then
         n.forwardingStreams.count sid
       else 0) + forwardedCount node ns sid := by
  have h : forwardedCount node (n :: ns) sid =
      (if n.id = node.id then (0 : Nat)
       else if n.role = Role.forwarder ∨ n.role = Role.hybrid then
         0 + n.forwardingStreams.count sid
       else 0) + forwardedCount node ns sid := by
    show List.foldl (fun acc n =>
        if n.id = node.id then acc
        else if n.role = Role.forwarder ∨ n.role = Role.hybrid then
          acc + n.forwardingStreams.count sid
        else acc)
      (if n.id = node.id then (0 : Nat)
       else if n.role = Role.forwarder ∨ n.role = Role.hybrid then
         0 + n.forwardingStreams.count sid
       else 0) ns = _
    exact forwardedCount_go node sid ns _
  rw [h]
  split_ifs <;> omega

/-- The heap-threaded forwarder-counting loop computes `forwarderCount` and
returns the heap unchanged. -/
theorem forwarderCountSt_spec (h : Heap) :
    forwarderCountSt h = (forwarderCount h.allNodes, h) := by
  unfold forwarderCountSt forwarderCount
  suffices hgo : ∀ (l : List Node) (a : Nat),
      l.foldl forwarderCountStep (a, h)
      = (a + (l.filter (fun n =>
          n.role = Role.forwarder ∨ n.role = Role.hybrid)).length, h) by
    rw [hgo h.allNodes 0]
    simp
  intro l
  induction l with
  | nil => intro a; simp
  | cons n ns ih =>
      intro a
      rw [List.foldl_cons]
      by_cases hr : n.role = Role.forwarder ∨ n.role = Role.hybrid
      · rw [show forwarderCountStep (a, h) n = (a + 1, h) from by
            simp [forwarderCountStep, hr],
          ih, List.filter_cons, if_pos (by simp [hr])]
        simp only [Prod.mk.injEq, List.length_cons]
        exact ⟨by omega, trivial⟩
      · rw [show forwarderCountStep (a, h) n = (a, h) from by
            simp [forwarderCountStep, hr],
          ih, List.filter_cons, if_neg (by simp [hr])]

/-- The heap-threaded better-node-counting loop computes the better-node
count and returns the heap unchanged. -/
theorem betterNodesSt_spec (cfg : Config) (score : ℚ) (h : Heap) :
    betterNodesSt cfg score h =
      ((h.allNodes.filter (fun n => n.id ≠ h.node.id ∧ n.canFwd ∧
          calculateForwardingScore cfg n > score)).length, h) := by
  unfold betterNodesSt
  suffices hgo : ∀ (l : List Node) (a : Nat),
      l.foldl (betterNodesStep cfg score) (a, h)
      = (a + (l.filter (fun n => n.id ≠ h.node.id ∧ n.canFwd ∧
          calculateForwardingScore cfg n > score)).length, h) by
    rw [hgo h.allNodes 0]
    simp
  intro l
  induction l with
  | nil => intro a; simp
  | cons n ns ih =>
      intro a
      rw [List.foldl_cons]
      by_cases hid : n.id ≠ h.node.id
      · by_cases hcf : n.canFwd
        · by_cases hsc : calculateForwardingScore cfg n > score
          · rw [show betterNodesStep cfg score (a, h) n = (a + 1, h) from by
                simp [betterNodesStep, canFwdSt, calcScoreSt, hid, hcf, hsc],
              ih, List.filter_cons, if_pos (by simp [hid, hcf, hsc])]
            simp only [Prod.mk.injEq, List.length_cons]
            exact ⟨by omega, trivial⟩
          · rw [show betterNodesStep cfg score (a, h) n = (a, h) from by
                simp [betterNodesStep, canFwdSt, calcScoreSt, hid, hcf, hsc],
              ih, List.filter_cons, if_neg (by simp [hid, hcf, hsc])]
        · rw [show betterNodesStep cfg score (a, h) n = (a, h) from by
              simp [betterNodesStep, canFwdSt, calcScoreSt, hid, hcf],
            ih, List.filter_cons, if_neg (by simp [hid, hcf])]
      · rw [show betterNodesStep cfg score (a, h) n = (a, h) from by
            simp [betterNodesStep, hid],
          ih, List.filter_cons, if_neg (by simp [hid])]

/-- The heap-threaded `forwardedStreams` map construction computes
`forwardedCount` pointwise and returns the heap unchanged. -/
theorem forwardedCountMapSt_spec (h : Heap) :
    forwardedCountMapSt h =
      (fun sid => forwardedCount h.node h.allNodes sid, h) := by
  unfold forwardedCountMapSt
  suffices hgo : ∀ (l : List Node) (f0 : String → Nat),
      l.foldl forwardedCountMapStep (f0, h)
      = (fun sid => f0 sid + forwardedCount h.node l sid, h) by
    rw [hgo h.allNodes (fun _ => 0)]
    simp
  intro l
  induction l with
  | nil => intro f0; simp [forwardedCount]
  | cons n ns ih =>
      intro f0
      rw [List.foldl_cons]
      by_cases hid : n.id = h.node.id
      · rw [show forwardedCountMapStep (f0, h) n = (f0, h) from by
            simp [forwardedCountMapStep, hid],
          ih]
        refine Prod.ext ?_ rfl
        funext sid
        show f0 sid + forwardedCount h.node ns sid =
          f0 sid + forwardedCount h.node (n :: ns) sid
        rw [forwardedCount_cons]
        simp [hid]
      · by_cases hr : n.role = Role.forwarder ∨ n.role = Role.hybrid
        · rw [show forwardedCountMapStep (f0, h) n =
              (fun sid => f0 sid + n.forwardingStreams.count sid, h) from by
                simp [forwardedCountMapStep, getForwardingStreamsSt, hid, hr],
            ih]
          refine Prod.ext ?_ rfl
          funext sid
          show f0 sid + n.forwardingStreams.count sid + forwardedCount h.node ns sid =
            f0 sid + forwardedCount h.node (n :: ns) sid
          rw [forwardedCount_cons]
          simp only [hid, if_false, hr, if_true]
          omega
        · rw [show forwardedCountMapStep (f0, h) n = (f0, h) from by
              simp [forwardedCountMapStep, getForwardingStreamsSt, hid, hr],
            ih]
          refine Prod.ext ?_ rfl
          funext sid
          show f0 sid + forwardedCount h.node ns sid =
            f0 sid + forwardedCount h.node (n :: ns) sid
          rw [forwardedCount_cons]
          simp [hid, hr]

/-- The heap-threaded `assignStreamsToForward` computes the pure result and
returns the heap unchanged. -/
theorem assignStreamsSt_spec (h : Heap) :
    assignStreamsSt h = (assignStreamsToForward h.node h.allNodes h.room, h) := by
  simp only [assignStreamsSt, getAllStreamsSt, forwardedCountMapSt_spec]
  rfl

/-- **C9.** `AssignRole` (with its helper `assignStreamsToForward`) never
mutates its inputs: in the state-passing reading, where the candidate node,
the node list and the room form a heap threaded through every method call,
the final heap is the initial heap — the candidate's role, forwarding
streams, metrics and capabilities, every other node, and the room's maps are
exactly as before the call — and the value returned is the pure
`AssignRole` of the original heap contents; only the caller applies it. -/
theorem assignRole_no_mutation (cfg : Config) (hp : Heap) :
    (assignRoleSt cfg hp).2 = hp ∧
    (assignRoleSt cfg hp).1 = AssignRole cfg hp.node hp.allNodes hp.room := by
  simp only [assignRoleSt, canFwdSt, calcScoreSt, forwarderCountSt_spec,
    betterNodesSt_spec, assignStreamsSt_spec, AssignRole]
  split_ifs <;> exact ⟨rfl, rfl⟩

end LingEchoX
